import Mathlib

/-!
Verification of the metrics engine of the FDCR portfolio dashboard
(source file `app.py`): the grouping / KPI-cost pipeline `process_kpi_data`
and the per-domain score computation inside
`create_domain_performance_chart`.

Modelling conventions, matching the pandas semantics of the source:
- a DataFrame cell that may be null/NaN is an `Option ℚ` (`none` = NaN);
- `groupby(...).agg('sum')` skips NaN values (`skipna=True`), i.e. sums
  `Option.getD 0`; rows whose group key is NaN are dropped, and with the
  default `sort=True` the result has one row per distinct non-null key in
  ascending key order (for the two-column key: lexicographic order);
- `df['domain'].unique()` keeps first-encounter order and keeps NaN;
- a float division whose result is NaN/inf (0/0, x/0), or that raises
  `ZeroDivisionError` on exact integers, is modelled as `none`
  ("undefined"), and NaN propagates through arithmetic as `none`.
-/

/-- One flat project record, as returned by the record source.  Only the
fields read by the metrics engine are modelled. -/
structure ProjectRecord where
  domain : Option String
  programme : Option String
  project_name : String
  total_budget : Option ℚ
  journal_articles : Option ℚ
  conference_papers : Option ℚ
  book_chapters : Option ℚ
  technology_demonstrators : Option ℚ
  status : Option ℤ
deriving DecidableEq

/-- NaN-skipping reading of a cell: pandas sums treat NaN as 0. -/
def q0 (v : Option ℚ) : ℚ := v.getD 0

/-- Column sum with `skipna=True`, as in `df[col].sum()` and
`groupby(...).agg('sum')`. -/
def colSum (f : ProjectRecord → Option ℚ) (l : List ProjectRecord) : ℚ :=
  (l.map (fun r => q0 (f r))).sum

/-- Helper for first-encounter deduplication, structurally recursive. -/
def uniqueAux [DecidableEq α] (seen : List α) : List α → List α
  | [] => []
  | a :: l => if a ∈ seen then uniqueAux seen l else a :: uniqueAux (a :: seen) l

/-- Distinct values in first-encounter order, as pandas `unique()`. -/
def uniqueFirst [DecidableEq α] (l : List α) : List α := uniqueAux [] l

/-- Lexicographic order on the composite (domain, programme) group key,
the order in which pandas sorts a two-column groupby result. -/
def keyLe (a b : String × String) : Prop :=
  a.1 < b.1 ∨ (a.1 = b.1 ∧ a.2 ≤ b.2)

instance : DecidableRel keyLe := fun _ _ => inferInstanceAs (Decidable (_ ∨ _))

instance : IsTotal (String × String) keyLe where
  total a b := by
    rcases lt_trichotomy a.1 b.1 with h | h | h
    · exact Or.inl (Or.inl h)
    · rcases le_total a.2 b.2 with h2 | h2
      · exact Or.inl (Or.inr ⟨h, h2⟩)
      · exact Or.inr (Or.inr ⟨h.symm, h2⟩)
    · exact Or.inr (Or.inl h)

instance : IsTrans (String × String) keyLe where
  trans a b c hab hbc := by
    rcases hab with h1 | ⟨h1, h1'⟩ <;> rcases hbc with h2 | ⟨h2, h2'⟩
    · exact Or.inl (h1.trans h2)
    · exact Or.inl (h2 ▸ h1)
    · exact Or.inl (h1 ▸ h2)
    · exact Or.inr ⟨h1.trans h2, h1'.trans h2'⟩

instance : IsAntisymm (String × String) keyLe where
  antisymm a b hab hba := by
    rcases hab with h1 | ⟨h1, h1'⟩
    · rcases hba with h2 | ⟨h2, h2'⟩
      · exact absurd h2 (lt_asymm h1)
      · exact absurd h2 (ne_of_gt h1)
    · rcases hba with h2 | ⟨h2, h2'⟩
      · exact absurd h1 (ne_of_gt h2)
      · exact Prod.ext h1 (le_antisymm h1' h2')

/-- Group keys of `df.groupby('domain')`: distinct non-null domains in
ascending order (pandas `sort=True`; NaN keys are dropped). -/
def domainKeys (records : List ProjectRecord) : List String :=
  List.insertionSort (· ≤ ·) (uniqueFirst (records.filterMap (·.domain)))

/-- Composite key of `df.groupby(['domain', 'programme'])`: defined only
when both levels are non-null (pandas drops a row whose key has a NaN). -/
def progKey (r : ProjectRecord) : Option (String × String) :=
  match r.domain, r.programme with
  | some d, some p => some (d, p)
  | _, _ => none

/-- Group keys of the programme-level groupby, in ascending lexicographic
order of (domain, programme). -/
def programmeKeys (records : List ProjectRecord) : List (String × String) :=
  List.insertionSort keyLe (uniqueFirst (records.filterMap progKey))

/-- One row of the grouped frame before the cost columns are added:
the visible name plus the five summed columns. -/
structure AggRow where
  name : String
  total_budget : Option ℚ
  journal_articles : Option ℚ
  conference_papers : Option ℚ
  book_chapters : Option ℚ
  technology_demonstrators : Option ℚ
deriving DecidableEq

/-- Member records of the domain group with key `d`. -/
def domainGroup (records : List ProjectRecord) (d : String) : List ProjectRecord :=
  records.filter (fun r => decide (r.domain = some d))

/-- Member records of the programme group with composite key `k`. -/
def programmeGroup (records : List ProjectRecord) (k : String × String) :
    List ProjectRecord :=
  records.filter (fun r => decide (progKey r = some k))

/-- The five aggregated sums of one group, with the given visible name. -/
def sumRow (name : String) (l : List ProjectRecord) : AggRow :=
  { name := name
    total_budget := some (colSum (·.total_budget) l)
    journal_articles := some (colSum (·.journal_articles) l)
    conference_papers := some (colSum (·.conference_papers) l)
    book_chapters := some (colSum (·.book_chapters) l)
    technology_demonstrators := some (colSum (·.technology_demonstrators) l) }

/-- Project-level pass-through row: the column projection
`df[['project_name', 'total_budget', ...]]` keeps cell values (including
NaN) unchanged. -/
def projRow (r : ProjectRecord) : AggRow :=
  { name := r.project_name
    total_budget := r.total_budget
    journal_articles := r.journal_articles
    conference_papers := r.conference_papers
    book_chapters := r.book_chapters
    technology_demonstrators := r.technology_demonstrators }

/-- The grouping stage of `process_kpi_data`: `if level == 'domain': ...
elif level == 'programme': ... else: # project level`.  Any level other
than the two named ones takes the project branch. -/
def aggregate (records : List ProjectRecord) (level : String) : List AggRow :=
  if level = "domain" then
    (domainKeys records).map (fun d => sumRow d (domainGroup records d))
  else if level = "programme" then
    (programmeKeys records).map (fun k => sumRow k.2 (programmeGroup records k))
  else
    records.map projRow

/-- One output row of `process_kpi_data`: the grouped columns plus the
four per-metric cost columns, `total_kpis` and `cost_per_kpi`. -/
structure EffRow where
  name : String
  total_budget : Option ℚ
  journal_articles : Option ℚ
  conference_papers : Option ℚ
  book_chapters : Option ℚ
  technology_demonstrators : Option ℚ
  journal_articles_cost : Option ℚ
  conference_papers_cost : Option ℚ
  book_chapters_cost : Option ℚ
  technology_demonstrators_cost : Option ℚ
  total_kpis : ℚ
  cost_per_kpi : Option ℚ
deriving DecidableEq

/-- NaN-propagating division: NaN / y and x / NaN are NaN.  The source
only divides when the denominator was tested `> 0`, so the denominator is
a nonzero number at every use. -/
def ndiv (a b : Option ℚ) : Option ℚ :=
  match a, b with
  | some x, some y => some (x / y)
  | _, _ => none

/-- The per-metric cost column:
`x['total_budget'] / x[kpi] if x[kpi] > 0 else 0`.  A NaN metric fails
the `> 0` test, so it also yields 0. -/
def metricCost (budget m : Option ℚ) : Option ℚ :=
  match m with
  | some v => if 0 < v then ndiv budget (some v) else some 0
  | none => some 0

/-- Row-wise `grouped[kpi_columns].sum(axis=1)` (skipna): always a
number, even when some metric cells are NaN. -/
def rowKpis (a : AggRow) : ℚ :=
  q0 a.journal_articles + q0 a.conference_papers + q0 a.book_chapters +
    q0 a.technology_demonstrators

/-- The cost-column stage of `process_kpi_data` applied to one grouped
row. -/
def addCosts (a : AggRow) : EffRow :=
  { name := a.name
    total_budget := a.total_budget
    journal_articles := a.journal_articles
    conference_papers := a.conference_papers
    book_chapters := a.book_chapters
    technology_demonstrators := a.technology_demonstrators
    journal_articles_cost := metricCost a.total_budget a.journal_articles
    conference_papers_cost := metricCost a.total_budget a.conference_papers
    book_chapters_cost := metricCost a.total_budget a.book_chapters
    technology_demonstrators_cost := metricCost a.total_budget a.technology_demonstrators
    total_kpis := rowKpis a
    cost_per_kpi :=
      if 0 < rowKpis a then ndiv a.total_budget (some (rowKpis a)) else some 0 }

/-- The full `process_kpi_data(df, level)`: grouping stage followed by
the cost columns. -/
def process_kpi_data (records : List ProjectRecord) (level : String) : List EffRow :=
  (aggregate records level).map addCosts

/-- One entry of the `domain_metrics` list built inside
`create_domain_performance_chart`. -/
structure DomainMetrics where
  domain : Option String
  performance_score : Option ℚ
  budget_score : Option ℚ
  activity_score : ℚ
  output_score : Option ℚ
deriving DecidableEq

/-- The row filter `df[df['domain'] == domain]`.  When the unique value
is NaN, elementwise NaN == NaN is False, so the filter is empty. -/
def domMatch (u : Option String) (r : ProjectRecord) : Bool :=
  match u with
  | some d => decide (r.domain = some d)
  | none => false

/-- Sum of the four research-output column sums. -/
def researchOutput (l : List ProjectRecord) : ℚ :=
  colSum (·.journal_articles) l + colSum (·.conference_papers) l +
    colSum (·.book_chapters) l + colSum (·.technology_demonstrators) l

/-- The per-domain score computation of `create_domain_performance_chart`.
The source computes `budget_score = total_budget / df['total_budget'].sum()
* 100` without a zero guard; when the global total is 0 the division is
0/0 or x/0, i.e. NaN/inf (or `ZeroDivisionError` on exact ints), modelled
as `none`.  The other two scores carry the source's explicit `> 0`
guards. -/
def scoreDomain (records : List ProjectRecord) (u : Option String) : DomainMetrics :=
  let domain_data := records.filter (domMatch u)
  let total_budget := colSum (·.total_budget) domain_data
  let active_projects := (domain_data.filter (fun r => decide (r.status = some 1))).length
  let total_projects := domain_data.length
  let research_output := researchOutput domain_data
  let global_budget := colSum (·.total_budget) records
  let budget_score : Option ℚ :=
    if global_budget = 0 then none else some (total_budget / global_budget * 100)
  let activity_score : ℚ :=
    if 0 < total_projects then (active_projects : ℚ) / (total_projects : ℚ) * 100 else 0
  let global_output := researchOutput records
  let output_score : Option ℚ :=
    if 0 < research_output then
      (if global_output = 0 then none else some (research_output / global_output * 100))
    else some 0
  let performance_score : Option ℚ :=
    match budget_score, output_score with
    | some b, some o => some (b * 0.3 + activity_score * 0.3 + o * 0.4)
    | _, _ => none
  { domain := u
    performance_score := performance_score
    budget_score := budget_score
    activity_score := activity_score
    output_score := output_score }

/-- The `domain_metrics` list: one entry per value of
`df['domain'].unique()`, in first-encounter order (NaN kept). -/
def domain_metrics (records : List ProjectRecord) : List DomainMetrics :=
  (uniqueFirst (records.map (·.domain))).map (scoreDomain records)

/-! Helper lemmas about the embedding's list machinery. -/

theorem mem_uniqueAux [DecidableEq α] :
    ∀ (l seen : List α) (a : α), a ∈ uniqueAux seen l ↔ a ∈ l ∧ a ∉ seen := by
  intro l
  induction l with
  | nil => simp [uniqueAux]
  | cons b l ih =>
    intro seen a
    by_cases hb : b ∈ seen
    · rw [uniqueAux, if_pos hb, ih]
      constructor
      · rintro ⟨h1, h2⟩
        exact ⟨List.mem_cons_of_mem _ h1, h2⟩
      · rintro ⟨h1, h2⟩
        rcases List.mem_cons.1 h1 with rfl | h1
        · exact absurd hb h2
        · exact ⟨h1, h2⟩
    · rw [uniqueAux, if_neg hb]
      constructor
      · intro h
        rcases List.mem_cons.1 h with rfl | h
        · exact ⟨List.mem_cons_self _ _, hb⟩
        · rcases (ih _ _).1 h with ⟨h1, h2⟩
          refine ⟨List.mem_cons_of_mem _ h1, fun hs => h2 (List.mem_cons_of_mem _ hs)⟩
      · rintro ⟨h1, h2⟩
        rcases List.mem_cons.1 h1 with rfl | h1
        · exact List.mem_cons_self _ _
        · by_cases hab : a = b
          · subst hab; exact List.mem_cons_self _ _
          · exact List.mem_cons_of_mem _
              ((ih _ _).2 ⟨h1, fun hs => by
                rcases List.mem_cons.1 hs with h | h
                · exact hab h
                · exact h2 h⟩)

theorem mem_uniqueFirst [DecidableEq α] (l : List α) (a : α) :
    a ∈ uniqueFirst l ↔ a ∈ l := by
  rw [uniqueFirst, mem_uniqueAux]
  simp

theorem nodup_uniqueAux [DecidableEq α] :
    ∀ (l seen : List α), (uniqueAux seen l).Nodup := by
  intro l
  induction l with
  | nil => intro seen; simp [uniqueAux]
  | cons b l ih =>
    intro seen
    by_cases hb : b ∈ seen
    · rw [uniqueAux, if_pos hb]; exact ih seen
    · rw [uniqueAux, if_neg hb]
      refine List.Nodup.cons ?_ (ih _)
      intro hmem
      exact ((mem_uniqueAux _ _ _).1 hmem).2 (List.mem_cons_self _ _)

theorem nodup_uniqueFirst [DecidableEq α] (l : List α) : (uniqueFirst l).Nodup :=
  nodup_uniqueAux l []

theorem colSum_cons (f : ProjectRecord → Option ℚ) (r : ProjectRecord)
    (l : List ProjectRecord) : colSum f (r :: l) = q0 (f r) + colSum f l := by
  simp [colSum]

theorem sum_map_add_distrib {κ : Type} (l : List κ) (f g : κ → ℚ) :
    (l.map fun k => f k + g k).sum = (l.map f).sum + (l.map g).sum := by
  induction l with
  | nil => simp
  | cons a l ih => simp [ih]; ring

theorem sum_map_ite_of_not_mem {κ : Type} [DecidableEq κ] (ks : List κ) (k0 : κ)
    (x : ℚ) (hk : k0 ∉ ks) : (ks.map fun k => if k = k0 then x else 0).sum = 0 := by
  induction ks with
  | nil => simp
  | cons b ks ih =>
    rw [List.map_cons, List.sum_cons, if_neg, ih (fun h => hk (List.mem_cons_of_mem _ h)),
      add_zero]
    rintro rfl
    exact hk (List.mem_cons_self _ _)

theorem sum_map_ite_of_mem {κ : Type} [DecidableEq κ] (ks : List κ) (k0 : κ) (x : ℚ)
    (hnd : ks.Nodup) (hk : k0 ∈ ks) :
    (ks.map fun k => if k = k0 then x else 0).sum = x := by
  induction ks with
  | nil => simp at hk
  | cons b ks ih =>
    rcases List.mem_cons.1 hk with rfl | hk
    · rw [List.map_cons, List.sum_cons, if_pos rfl,
        sum_map_ite_of_not_mem _ _ _ (List.nodup_cons.1 hnd).1, add_zero]
    · rw [List.map_cons, List.sum_cons, if_neg, ih (List.nodup_cons.1 hnd).2 hk, zero_add]
      rintro rfl
      exact (List.nodup_cons.1 hnd).1 hk

/-- Grouping partitions the records: summing a value over every group
(one per distinct non-null key) equals summing it over the records whose
key is non-null. -/
theorem sum_groups {α κ : Type} [DecidableEq κ] (key : α → Option κ) (val : α → ℚ) :
    ∀ (records : List α) (ks : List κ), ks.Nodup →
      (∀ r ∈ records, ∀ k, key r = some k → k ∈ ks) →
      (ks.map fun k => ((records.filter fun r => decide (key r = some k)).map val).sum).sum
        = ((records.filter fun r => (key r).isSome).map val).sum := by
  intro records
  induction records with
  | nil => intro ks _ _; simp
  | cons a l ih =>
    intro ks hnd hcov
    have hcov' : ∀ r ∈ l, ∀ k, key r = some k → k ∈ ks := fun r hr =>
      hcov r (List.mem_cons_of_mem _ hr)
    cases ha : key a with
    | none =>
      have h1 : ∀ k ∈ ks,
          (((a :: l).filter fun r => decide (key r = some k)).map val).sum
            = ((l.filter fun r => decide (key r = some k)).map val).sum := by
        intro k _
        rw [List.filter_cons_of_neg (by simp [ha])]
      rw [List.map_congr_left h1, List.filter_cons_of_neg (by simp [ha]), ih ks hnd hcov']
    | some k0 =>
      have hk0 : k0 ∈ ks := hcov a (List.mem_cons_self _ _) k0 ha
      have h1 : ∀ k ∈ ks,
          (((a :: l).filter fun r => decide (key r = some k)).map val).sum
            = (if k = k0 then val a else 0)
              + ((l.filter fun r => decide (key r = some k)).map val).sum := by
        intro k _
        by_cases hk : k = k0
        · subst hk
          rw [List.filter_cons_of_pos (by simp [ha]), if_pos rfl, List.map_cons,
            List.sum_cons]
        · rw [List.filter_cons_of_neg (by simp [ha, Ne.symm hk]), if_neg hk, zero_add]
      rw [List.map_congr_left h1, sum_map_add_distrib,
        sum_map_ite_of_mem ks k0 (val a) hnd hk0, ih ks hnd hcov',
        List.filter_cons_of_pos (by simp [ha]), List.map_cons, List.sum_cons]

/-- Membership in the pipeline output comes from one grouped row. -/
theorem mem_process_kpi_data {records : List ProjectRecord} {level : String}
    {g : EffRow} (hg : g ∈ process_kpi_data records level) :
    ∃ a ∈ aggregate records level, g = addCosts a := by
  rcases List.mem_map.1 hg with ⟨a, ha, rfl⟩
  exact ⟨a, ha, rfl⟩

/-- C1: for every rollup produced by the efficiency stage, at every
grouping level, each of the four derived cost fields equals the rollup's
total_budget divided by its metric value m when m > 0 and equals 0
otherwise, and cost_per_kpi equals total_budget / total_kpis when
total_kpis > 0 and equals 0 otherwise — for any total_budget value,
including a nonzero budget with zero outputs.  All the functions involved
are total, so no zero denominator ever raises an error. -/
theorem c1_cost_fields (records : List ProjectRecord) (level : String) (g : EffRow)
    (hg : g ∈ process_kpi_data records level) :
    g.journal_articles_cost = metricCost g.total_budget g.journal_articles ∧
    g.conference_papers_cost = metricCost g.total_budget g.conference_papers ∧
    g.book_chapters_cost = metricCost g.total_budget g.book_chapters ∧
    g.technology_demonstrators_cost
      = metricCost g.total_budget g.technology_demonstrators ∧
    g.cost_per_kpi
      = (if 0 < g.total_kpis then ndiv g.total_budget (some g.total_kpis)
         else some 0) := by
  rcases mem_process_kpi_data hg with ⟨a, _, rfl⟩
  exact ⟨rfl, rfl, rfl, rfl, rfl⟩

/-- Input for the C1 witness. -/
def exW1 : List ProjectRecord :=
  [⟨some "AI", some "NLP", "P1", some 100, some 2, some 0, some 0, some 0, some 1⟩]

/-- Row for the C1 witness. -/
def gW1 : EffRow := addCosts (sumRow "AI" (domainGroup exW1 "AI"))

theorem c1_cost_fields_witness :
    gW1.journal_articles_cost = metricCost gW1.total_budget gW1.journal_articles ∧
    gW1.conference_papers_cost = metricCost gW1.total_budget gW1.conference_papers ∧
    gW1.book_chapters_cost = metricCost gW1.total_budget gW1.book_chapters ∧
    gW1.technology_demonstrators_cost
      = metricCost gW1.total_budget gW1.technology_demonstrators ∧
    gW1.cost_per_kpi
      = (if 0 < gW1.total_kpis then ndiv gW1.total_budget (some gW1.total_kpis)
         else some 0) :=
  c1_cost_fields exW1 "domain" gW1 (by
    simp [process_kpi_data, aggregate, domainKeys, uniqueFirst, uniqueAux, exW1, gW1])

/-! Claim C6: the source has no error path for an unknown grouping level;
the else branch is the project branch. -/

/-- C6 (amended): requesting any level other than "domain" and
"programme" — including an arbitrary unknown level — produces exactly the
project-level pass-through result; no error is raised. -/
theorem c6_unknown_level_is_project_passthrough (records : List ProjectRecord)
    (level : String) (h1 : level ≠ "domain") (h2 : level ≠ "programme") :
    process_kpi_data records level = process_kpi_data records "project" := by
  simp [process_kpi_data, aggregate, h1, h2]

/-- Input for the C6 witness and counterexample. -/
def exC6 : List ProjectRecord :=
  [⟨some "AI", some "NLP", "P1", some 100, some 2, some 0, some 0, some 0, some 1⟩]

theorem c6_unknown_level_witness :
    process_kpi_data exC6 "granularity" = process_kpi_data exC6 "project" :=
  c6_unknown_level_is_project_passthrough exC6 "granularity" (by decide) (by decide)

/-- C6 counterexample: with an unknown level the call does not fail — it
returns a (one-row, project-level) result, contradicting the claim that
an InvalidArgument-kind error is surfaced and no result is returned. -/
theorem c6_counterexample :
    process_kpi_data exC6 "granularity" = process_kpi_data exC6 "project" ∧
    (process_kpi_data exC6 "granularity").length = 1 := by
  constructor
  · simp [process_kpi_data, aggregate]
  · simp [process_kpi_data, aggregate, exC6]

/-! Claim C8: the worked example scenario of the spec. -/

/-- The two-record example input: both records in domain "AI", programme
"NLP"; record A with budget 100, 2 journal articles, status 1; record B
with budget 50, 1 conference paper, status 0. -/
def exC8 : List ProjectRecord :=
  [⟨some "AI", some "NLP", "A", some 100, some 2, some 0, some 0, some 0, some 1⟩,
   ⟨some "AI", some "NLP", "B", some 50, some 0, some 1, some 0, some 0, some 0⟩]

/-- C8: on the example input, domain-level aggregation yields exactly one
rollup, name "AI", budget 150, metric sums (2, 1, 0, 0), costs
(75, 150, 0, 0), total_kpis 3 and cost_per_kpi 50; and the domain scorer
yields budget_score 100, activity_score 50, output_score 100 and
performance_score 85. -/
theorem c8_example_scenario :
    process_kpi_data exC8 "domain" =
      [⟨"AI", some 150, some 2, some 1, some 0, some 0, some 75, some 150, some 0,
        some 0, 3, some 50⟩] ∧
    domain_metrics exC8 = [⟨some "AI", some 85, some 100, 50, some 100⟩] := by
  constructor
  · simp [process_kpi_data, aggregate, domainKeys, uniqueFirst, uniqueAux, domainGroup,
      sumRow, addCosts, metricCost, ndiv, rowKpis, colSum, q0, List.insertionSort,
      List.orderedInsert, exC8]
    norm_num
  · simp [domain_metrics, uniqueFirst, uniqueAux, scoreDomain, domMatch, researchOutput,
      colSum, q0, exC8]
    norm_num

/-! Claim C4: the scorer's budget_score division by the global budget
total is not guarded in the source; a zero global total makes it
undefined (NaN or a raised ZeroDivisionError), not 0. -/

/-- Failing input for C4: one record whose budget is 0, so the global
budget total is 0. -/
def exC4 : List ProjectRecord :=
  [⟨some "AI", some "NLP", "P1", some 0, some 0, some 0, some 0, some 0, some 1⟩]

/-- C4 (evaluation at the failing input): the global budget total is 0
and the scorer's budget_score is undefined (`none`, modelling the 0/0 of
the unguarded division at source line 532) for the only domain — it is
not 0, contradicting the claimed guard. -/
theorem c4_zero_global_budget_not_guarded :
    colSum (·.total_budget) exC4 = 0 ∧
    (domain_metrics exC4).map DomainMetrics.budget_score = [none] ∧
    (none : Option ℚ) ≠ some 0 := by
  refine ⟨?_, ?_, by decide⟩
  · simp [colSum, q0, exC4]
  · simp [domain_metrics, uniqueFirst, uniqueAux, scoreDomain, domMatch, researchOutput,
      colSum, q0, exC4]

/-! Claim C2: the budget sum invariant across grouping levels. -/

/-- Summing a column over a sorted-keys grouping equals summing it over
the records with a non-null key. -/
theorem grouped_sum_eq {κ : Type} [DecidableEq κ] (key : ProjectRecord → Option κ)
    (r : κ → κ → Prop) [DecidableRel r] (records : List ProjectRecord)
    (f : ProjectRecord → Option ℚ) :
    ((List.insertionSort r (uniqueFirst (records.filterMap key))).map
        fun k => colSum f (records.filter fun x => decide (key x = some k))).sum
      = colSum f (records.filter fun x => (key x).isSome) := by
  rw [((List.perm_insertionSort r _).map _).sum_eq]
  have hcov : ∀ x ∈ records, ∀ k, key x = some k →
      k ∈ uniqueFirst (records.filterMap key) := by
    intro x hx k hk
    exact (mem_uniqueFirst _ _).2 (List.mem_filterMap.2 ⟨x, hx, hk⟩)
  simpa [colSum] using
    sum_groups key (fun x => q0 (f x)) records (uniqueFirst (records.filterMap key))
      (nodup_uniqueFirst _) hcov

/-- The composite programme key is non-null exactly when both of its
levels are. -/
theorem progKey_isSome (r : ProjectRecord) :
    (progKey r).isSome = (r.domain.isSome && r.programme.isSome) := by
  cases hd : r.domain <;> cases hp : r.programme <;> simp [progKey, hd, hp]

/-- C2 (amended): at domain level the total_budget sum over the output
rollups equals the input sum over records with a non-null domain; at
programme level it equals the input sum over records with non-null
domain and programme (pandas drops a row whose composite key contains a
null); at project level the pass-through keeps every record, null domain
or not, so it equals the sum over all records.  In particular the claim
as stated holds at the domain level, and holds at every level when every
record has a non-null domain and a non-null programme (then all three
right-hand sides coincide with the non-null-domain input sum). -/
theorem c2_budget_sum_characterization (records : List ProjectRecord) :
    ((process_kpi_data records "domain").map fun g => q0 g.total_budget).sum
      = colSum (·.total_budget) (records.filter fun r => r.domain.isSome) ∧
    ((process_kpi_data records "programme").map fun g => q0 g.total_budget).sum
      = colSum (·.total_budget)
          (records.filter fun r => r.domain.isSome && r.programme.isSome) ∧
    ((process_kpi_data records "project").map fun g => q0 g.total_budget).sum
      = colSum (·.total_budget) records := by
  refine ⟨?_, ?_, ?_⟩
  · have h := grouped_sum_eq (·.domain) (· ≤ ·) records (·.total_budget)
    simpa [process_kpi_data, aggregate, domainKeys, domainGroup, addCosts, sumRow, q0,
      Function.comp] using h
  · have h := grouped_sum_eq progKey keyLe records (·.total_budget)
    have hf : (records.filter fun x => (progKey x).isSome)
        = records.filter fun r => r.domain.isSome && r.programme.isSome := by
      apply List.filter_congr
      intro x _
      exact progKey_isSome x
    rw [hf] at h
    simpa [process_kpi_data, aggregate, programmeKeys, programmeGroup, addCosts, sumRow,
      q0, Function.comp] using h
  · simp [process_kpi_data, aggregate, projRow, addCosts, colSum, q0, Function.comp]
    exact congrArg List.sum (List.map_congr_left fun r _ => rfl)

/-- Counterexample input for C2: a single record with a null domain and
budget 100. -/
def exC2 : List ProjectRecord :=
  [⟨none, some "NLP", "P1", some 100, some 0, some 0, some 0, some 0, some 1⟩]

/-- C2 counterexample: at project level the output rollups carry budget
100 while the input records with a non-null domain sum to 0, so the sum
invariant as claimed fails for the project grouping level. -/
theorem c2_counterexample :
    ((process_kpi_data exC2 "project").map fun g => q0 g.total_budget).sum = 100 ∧
    colSum (·.total_budget) (exC2.filter fun r => r.domain.isSome) = 0 ∧
    (100 : ℚ) ≠ 0 := by
  refine ⟨?_, ?_, by norm_num⟩
  · simp [process_kpi_data, aggregate, projRow, addCosts, q0, exC2]
  · simp [colSum, exC2]

/-! Claim C9: missing/null numeric fields. -/

/-- A record with every null numeric field replaced by 0 (what "treated
as 0" means for a record). -/
def zeroFill (r : ProjectRecord) : ProjectRecord :=
  { r with
    total_budget := some (q0 r.total_budget)
    journal_articles := some (q0 r.journal_articles)
    conference_papers := some (q0 r.conference_papers)
    book_chapters := some (q0 r.book_chapters)
    technology_demonstrators := some (q0 r.technology_demonstrators) }

theorem filterMap_zeroFill_domain (records : List ProjectRecord) :
    (records.map zeroFill).filterMap (·.domain) = records.filterMap (·.domain) := by
  rw [List.filterMap_map]
  rfl

theorem filterMap_zeroFill_progKey (records : List ProjectRecord) :
    (records.map zeroFill).filterMap progKey = records.filterMap progKey := by
  rw [List.filterMap_map]
  rfl

theorem domainGroup_zeroFill (records : List ProjectRecord) (d : String) :
    domainGroup (records.map zeroFill) d = (domainGroup records d).map zeroFill := by
  rw [domainGroup, List.filter_map]
  rfl

theorem programmeGroup_zeroFill (records : List ProjectRecord) (k : String × String) :
    programmeGroup (records.map zeroFill) k
      = (programmeGroup records k).map zeroFill := by
  rw [programmeGroup, List.filter_map]
  rfl

theorem colSum_map_zeroFill (f : ProjectRecord → Option ℚ)
    (hf : ∀ r, f (zeroFill r) = some (q0 (f r))) (l : List ProjectRecord) :
    colSum f (l.map zeroFill) = colSum f l := by
  rw [colSum, colSum, List.map_map]
  exact congrArg List.sum (List.map_congr_left fun r _ => by simp [hf r, q0])

theorem sumRow_zeroFill (name : String) (l : List ProjectRecord) :
    sumRow name (l.map zeroFill) = sumRow name l := by
  rw [sumRow, sumRow, colSum_map_zeroFill (·.total_budget) (fun r => rfl),
    colSum_map_zeroFill (·.journal_articles) (fun r => rfl),
    colSum_map_zeroFill (·.conference_papers) (fun r => rfl),
    colSum_map_zeroFill (·.book_chapters) (fun r => rfl),
    colSum_map_zeroFill (·.technology_demonstrators) (fun r => rfl)]

/-- C9 (amended): at the domain and programme grouping levels a
missing/null budget or metric field is treated as 0 — replacing every
null numeric field by 0 first leaves the output unchanged — and nothing
raises; at the project grouping level null values pass through instead: a
null metric still yields cost 0 through the `> 0` guard (never an error),
but a null total_budget is carried through as null (see the C9
counterexample), not as 0. -/
theorem c9_missing_fields_policy (records : List ProjectRecord) :
    process_kpi_data (records.map zeroFill) "domain"
      = process_kpi_data records "domain" ∧
    process_kpi_data (records.map zeroFill) "programme"
      = process_kpi_data records "programme" ∧
    (∀ g ∈ process_kpi_data records "project",
       (g.journal_articles = none → g.journal_articles_cost = some 0) ∧
       (g.conference_papers = none → g.conference_papers_cost = some 0) ∧
       (g.book_chapters = none → g.book_chapters_cost = some 0) ∧
       (g.technology_demonstrators = none →
          g.technology_demonstrators_cost = some 0)) := by
  refine ⟨?_, ?_, ?_⟩
  · have hk : domainKeys (records.map zeroFill) = domainKeys records := by
      rw [domainKeys, domainKeys, filterMap_zeroFill_domain]
    simp only [process_kpi_data, aggregate, if_pos rfl, hk]
    exact congrArg _ (List.map_congr_left fun d _ => by
      rw [domainGroup_zeroFill, sumRow_zeroFill])
  · have hk : programmeKeys (records.map zeroFill) = programmeKeys records := by
      rw [programmeKeys, programmeKeys, filterMap_zeroFill_progKey]
    have hne : ("programme" : String) ≠ "domain" := by decide
    simp only [process_kpi_data, aggregate, if_neg hne, if_pos rfl, hk]
    exact congrArg _ (List.map_congr_left fun k _ => by
      rw [programmeGroup_zeroFill, sumRow_zeroFill])
  · intro g hg
    rcases List.mem_map.1 hg with ⟨a, ha, rfl⟩
    have hproj : aggregate records "project" = records.map projRow := by
      simp [aggregate]
    rw [hproj] at ha
    rcases List.mem_map.1 ha with ⟨r, _, rfl⟩
    refine ⟨fun h => ?_, fun h => ?_, fun h => ?_, fun h => ?_⟩ <;>
      · simp only [addCosts, projRow] at h ⊢
        rw [h]
        rfl

/-- Counterexample input for C9: a project-level record with a null
total_budget and 2 journal articles. -/
def exC9 : List ProjectRecord :=
  [⟨some "AI", some "NLP", "P1", none, some 2, some 0, some 0, some 0, some 1⟩]

/-- C9 counterexample: at project level the null total_budget is not
treated as 0 — the output rollup carries a null budget and a null (NaN)
journal-article cost, whereas treating the missing budget as 0 would give
budget 0 and cost 0. -/
theorem c9_counterexample :
    (process_kpi_data exC9 "project").map
        (fun g => (g.total_budget, g.journal_articles_cost)) = [(none, none)] ∧
    (none : Option ℚ) ≠ some 0 := by
  refine ⟨?_, by decide⟩
  simp [process_kpi_data, aggregate, projRow, addCosts, metricCost, ndiv, exC9]

/-- Witness input for C9. -/
def exW9 : List ProjectRecord :=
  [⟨some "AI", some "NLP", "P1", some 5, none, some 0, some 0, some 0, some 1⟩]

theorem c9_missing_fields_policy_witness :
    (addCosts (projRow (exW9.get ⟨0, by simp [exW9]⟩))).journal_articles_cost
      = some 0 :=
  ((c9_missing_fields_policy exW9).2.2 _
    (by simp [process_kpi_data, aggregate, exW9])).1 rfl

/-! Claim C10: cost_per_kpi is a lower bound on each computable
per-metric cost. -/

/-- For a nonnegative budget, dividing by the larger (total) denominator
gives the smaller cost. -/
theorem cost_div_mono {b m total : ℚ} (hb : 0 ≤ b) (hm : 0 < m) (hmt : m ≤ total) :
    b / total ≤ b / m := by
  gcongr

/-- The per-metric cost at a positive metric value is the division. -/
theorem metricCost_pos {b m : ℚ} (hm : 0 < m) :
    metricCost (some b) (some m) = some (b / m) := by
  simp [metricCost, ndiv, hm]

/-- C10: for every efficiency rollup whose total_budget and four metric
values are non-null and non-negative, and for each metric whose value is
> 0, cost_per_kpi is at most that metric's cost field: the same budget is
divided by total_kpis, which is at least the single metric value. -/
theorem c10_cost_per_kpi_lower_bound (records : List ProjectRecord) (level : String)
    (g : EffRow) (hg : g ∈ process_kpi_data records level) (b j c k t : ℚ)
    (hb : g.total_budget = some b) (hbnn : 0 ≤ b)
    (hj : g.journal_articles = some j) (hjnn : 0 ≤ j)
    (hc : g.conference_papers = some c) (hcnn : 0 ≤ c)
    (hk : g.book_chapters = some k) (hknn : 0 ≤ k)
    (ht : g.technology_demonstrators = some t) (htnn : 0 ≤ t) :
    (0 < j → ∃ ck cj, g.cost_per_kpi = some ck ∧
       g.journal_articles_cost = some cj ∧ ck ≤ cj) ∧
    (0 < c → ∃ ck cc, g.cost_per_kpi = some ck ∧
       g.conference_papers_cost = some cc ∧ ck ≤ cc) ∧
    (0 < k → ∃ ck cb, g.cost_per_kpi = some ck ∧
       g.book_chapters_cost = some cb ∧ ck ≤ cb) ∧
    (0 < t → ∃ ck ct, g.cost_per_kpi = some ck ∧
       g.technology_demonstrators_cost = some ct ∧ ck ≤ ct) := by
  rcases mem_process_kpi_data hg with ⟨a, _, rfl⟩
  simp only [addCosts] at hb hj hc hk ht ⊢
  have hkpis : rowKpis a = j + c + k + t := by
    rw [rowKpis, hj, hc, hk, ht]
    simp [q0]
  refine ⟨fun hpos => ?_, fun hpos => ?_, fun hpos => ?_, fun hpos => ?_⟩ <;>
    · have htot : 0 < rowKpis a := by rw [hkpis]; linarith
      refine ⟨b / rowKpis a, b / _, ?_, ?_,
        cost_div_mono hbnn hpos (by rw [hkpis]; linarith)⟩
      · rw [if_pos htot, hb]
        rfl
      · first
        | rw [hb, hj, metricCost_pos hpos]
        | rw [hb, hc, metricCost_pos hpos]
        | rw [hb, hk, metricCost_pos hpos]
        | rw [hb, ht, metricCost_pos hpos]

/-- Witness input for C10. -/
def exW10 : List ProjectRecord :=
  [⟨some "AI", some "NLP", "P", some 100, some 2, some 1, some 0, some 0, some 1⟩]

/-- Witness rollup for C10. -/
def gW10 : EffRow := addCosts (sumRow "AI" (domainGroup exW10 "AI"))

theorem c10_cost_per_kpi_lower_bound_witness :
    ∃ ck cj, gW10.cost_per_kpi = some ck ∧
      gW10.journal_articles_cost = some cj ∧ ck ≤ cj :=
  (c10_cost_per_kpi_lower_bound exW10 "domain" gW10
    (by simp [process_kpi_data, aggregate, domainKeys, uniqueFirst, uniqueAux, exW10,
      gW10])
    100 2 1 0 0
    (by norm_num [gW10, addCosts, sumRow, domainGroup, colSum, q0, exW10]) (by norm_num)
    (by norm_num [gW10, addCosts, sumRow, domainGroup, colSum, q0, exW10]) (by norm_num)
    (by norm_num [gW10, addCosts, sumRow, domainGroup, colSum, q0, exW10]) (by norm_num)
    (by norm_num [gW10, addCosts, sumRow, domainGroup, colSum, q0, exW10]) (by norm_num)
    (by norm_num [gW10, addCosts, sumRow, domainGroup, colSum, q0, exW10])
    (by norm_num)).1 (by norm_num)

/-! Claim C3: the performance score bound. -/

/-- Non-negativity of a nullable cell: null counts as in range. -/
def oNN (v : Option ℚ) : Bool :=
  match v with
  | none => true
  | some x => decide (0 ≤ x)

/-- A record whose budget and four metric cells are non-negative (nulls
allowed, since they are skipped or zero-defaulted downstream). -/
def recOk (r : ProjectRecord) : Bool :=
  oNN r.total_budget && oNN r.journal_articles && oNN r.conference_papers &&
    oNN r.book_chapters && oNN r.technology_demonstrators

theorem q0_nonneg {v : Option ℚ} (h : oNN v = true) : 0 ≤ q0 v := by
  cases v with
  | none => simp [q0]
  | some x => simpa [oNN, q0] using h

theorem recOk_fields {r : ProjectRecord} (h : recOk r = true) :
    oNN r.total_budget = true ∧ oNN r.journal_articles = true ∧
    oNN r.conference_papers = true ∧ oNN r.book_chapters = true ∧
    oNN r.technology_demonstrators = true := by
  simp only [recOk, Bool.and_eq_true] at h
  tauto

theorem colSum_nonneg (f : ProjectRecord → Option ℚ) {l : List ProjectRecord}
    (h : ∀ r ∈ l, oNN (f r) = true) : 0 ≤ colSum f l := by
  induction l with
  | nil => simp [colSum]
  | cons a l ih =>
    rw [colSum_cons]
    have h1 := q0_nonneg (h a (List.mem_cons_self _ _))
    have h2 := ih fun r hr => h r (List.mem_cons_of_mem _ hr)
    linarith

theorem colSum_filter_le (f : ProjectRecord → Option ℚ) (p : ProjectRecord → Bool)
    {l : List ProjectRecord} (h : ∀ r ∈ l, oNN (f r) = true) :
    colSum f (l.filter p) ≤ colSum f l := by
  induction l with
  | nil => simp [colSum]
  | cons a l ih =>
    have ha := q0_nonneg (h a (List.mem_cons_self _ _))
    have ihl := ih fun r hr => h r (List.mem_cons_of_mem _ hr)
    by_cases hp : p a = true
    · rw [List.filter_cons_of_pos hp, colSum_cons, colSum_cons]
      linarith
    · rw [List.filter_cons_of_neg (by simpa using hp), colSum_cons]
      linarith

theorem researchOutput_nonneg {l : List ProjectRecord}
    (h : ∀ r ∈ l, recOk r = true) : 0 ≤ researchOutput l := by
  have h1 := colSum_nonneg (·.journal_articles) fun r hr => (recOk_fields (h r hr)).2.1
  have h2 := colSum_nonneg (·.conference_papers)
    fun r hr => (recOk_fields (h r hr)).2.2.1
  have h3 := colSum_nonneg (·.book_chapters) fun r hr => (recOk_fields (h r hr)).2.2.2.1
  have h4 := colSum_nonneg (·.technology_demonstrators)
    fun r hr => (recOk_fields (h r hr)).2.2.2.2
  rw [researchOutput]
  linarith

theorem researchOutput_filter_le (p : ProjectRecord → Bool) {l : List ProjectRecord}
    (h : ∀ r ∈ l, recOk r = true) : researchOutput (l.filter p) ≤ researchOutput l := by
  have h1 := colSum_filter_le (·.journal_articles) p
    fun r hr => (recOk_fields (h r hr)).2.1
  have h2 := colSum_filter_le (·.conference_papers) p
    fun r hr => (recOk_fields (h r hr)).2.2.1
  have h3 := colSum_filter_le (·.book_chapters) p
    fun r hr => (recOk_fields (h r hr)).2.2.2.1
  have h4 := colSum_filter_le (·.technology_demonstrators) p
    fun r hr => (recOk_fields (h r hr)).2.2.2.2
  rw [researchOutput, researchOutput]
  linarith

/-- A share ratio scaled to percent stays within [0, 100]. -/
theorem ratio_bound {x y : ℚ} (hx : 0 ≤ x) (hxy : x ≤ y) (hy : 0 < y) :
    0 ≤ x / y * 100 ∧ x / y * 100 ≤ 100 := by
  constructor
  · positivity
  · have h1 : x / y ≤ 1 := (div_le_one hy).2 hxy
    nlinarith

/-- Every domain entry of the scorer stays within [0, 100] when the
input is non-negative and the global budget total is positive. -/
theorem scoreDomain_in_range (records : List ProjectRecord)
    (hok : ∀ r ∈ records, recOk r = true)
    (hgb : 0 < colSum (·.total_budget) records) (u : Option String) :
    ∃ q, (scoreDomain records u).performance_score = some q ∧ 0 ≤ q ∧ q ≤ 100 := by
  have hddok : ∀ r ∈ records.filter (domMatch u), recOk r = true :=
    fun r hr => hok r (List.mem_filter.1 hr).1
  have h0 : 0 ≤ colSum (·.total_budget) (records.filter (domMatch u)) :=
    colSum_nonneg _ fun r hr => (recOk_fields (hddok r hr)).1
  have hle : colSum (·.total_budget) (records.filter (domMatch u))
      ≤ colSum (·.total_budget) records :=
    colSum_filter_le _ _ fun r hr => (recOk_fields (hok r hr)).1
  have hbs := ratio_bound h0 hle hgb
  have hAT : ((records.filter (domMatch u)).filter
        fun r => decide (r.status = some 1)).length
      ≤ (records.filter (domMatch u)).length := List.length_filter_le _ _
  have hact : 0 ≤ (if 0 < (records.filter (domMatch u)).length then
        (((records.filter (domMatch u)).filter
            fun r => decide (r.status = some 1)).length : ℚ)
          / ((records.filter (domMatch u)).length : ℚ) * 100
      else 0) ∧
      (if 0 < (records.filter (domMatch u)).length then
        (((records.filter (domMatch u)).filter
            fun r => decide (r.status = some 1)).length : ℚ)
          / ((records.filter (domMatch u)).length : ℚ) * 100
      else 0) ≤ 100 := by
    by_cases hT : 0 < (records.filter (domMatch u)).length
    · rw [if_pos hT]
      exact ratio_bound (Nat.cast_nonneg _) (by exact_mod_cast hAT)
        (by exact_mod_cast hT)
    · rw [if_neg hT]
      norm_num
  simp only [scoreDomain]
  rw [if_neg (ne_of_gt hgb)]
  by_cases hro : 0 < researchOutput (records.filter (domMatch u))
  · have hrole : researchOutput (records.filter (domMatch u))
        ≤ researchOutput records := researchOutput_filter_le _ hok
    have hgo : 0 < researchOutput records := lt_of_lt_of_le hro hrole
    rw [if_pos hro, if_neg (ne_of_gt hgo)]
    have hos := ratio_bound (le_of_lt hro) hrole hgo
    exact ⟨_, rfl, by nlinarith [hbs.1, hbs.2, hact.1, hact.2, hos.1, hos.2],
      by nlinarith [hbs.1, hbs.2, hact.1, hact.2, hos.1, hos.2]⟩
  · rw [if_neg hro]
    exact ⟨_, rfl, by nlinarith [hbs.1, hbs.2, hact.1, hact.2],
      by nlinarith [hbs.1, hbs.2, hact.1, hact.2]⟩

/-- C3 (amended): for every non-empty, non-negative input whose global
budget total is positive, every performance_score is defined and lies in
[0, 100]; and whenever three component scores each lie in [0, 100], the
0.3/0.3/0.4 weighted combination used by the scorer lies in [0, 100].
The positive-total hypothesis is forced by the source's unguarded
budget_score division (see the C3 counterexample and claim C4): an input
that is all-zero budgets makes budget_score — and hence
performance_score — undefined. -/
theorem c3_performance_score_bounded (records : List ProjectRecord)
    (hok : ∀ r ∈ records, recOk r = true)
    (hgb : 0 < colSum (·.total_budget) records) :
    (∀ s ∈ domain_metrics records,
       ∃ q, s.performance_score = some q ∧ 0 ≤ q ∧ q ≤ 100) ∧
    (∀ b a o : ℚ, 0 ≤ b → b ≤ 100 → 0 ≤ a → a ≤ 100 → 0 ≤ o → o ≤ 100 →
       0 ≤ b * 0.3 + a * 0.3 + o * 0.4 ∧ b * 0.3 + a * 0.3 + o * 0.4 ≤ 100) := by
  constructor
  · intro s hs
    rcases List.mem_map.1 hs with ⟨u, _, rfl⟩
    exact scoreDomain_in_range records hok hgb u
  · intro b a o hb1 hb2 ha1 ha2 ho1 ho2
    constructor <;> nlinarith

/-- Counterexample input for C3: one record, non-negative everywhere,
with budget 0 — so the input is non-empty and non-negative but the global
budget total is 0. -/
def exC3 : List ProjectRecord :=
  [⟨some "AI", some "NLP", "P1", some 0, some 0, some 0, some 0, some 0, some 1⟩]

/-- C3 counterexample: the input is non-empty and non-negative, yet the
scorer's performance_score is undefined (`none`, from the unguarded
budget_score division 0/0), hence not in [0, 100] as the claim states. -/
theorem c3_counterexample :
    (∀ r ∈ exC3, recOk r = true) ∧ exC3.length = 1 ∧
    (domain_metrics exC3).map DomainMetrics.performance_score = [none] := by
  refine ⟨by decide, by simp [exC3], ?_⟩
  simp [domain_metrics, uniqueFirst, uniqueAux, scoreDomain, domMatch, researchOutput,
    colSum, q0, exC3]

/-- Witness input for C3. -/
def exW3 : List ProjectRecord :=
  [⟨some "AI", some "NLP", "P", some 10, some 1, some 0, some 0, some 0, some 1⟩]

theorem c3_performance_score_bounded_witness :
    ∃ q, (scoreDomain exW3 (some "AI")).performance_score = some q ∧
      0 ≤ q ∧ q ≤ 100 :=
  (c3_performance_score_bounded exW3 (by decide)
    (by norm_num [colSum, q0, exW3])).1 _
    (by simp [domain_metrics, uniqueFirst, uniqueAux, exW3])

/-! Claim C5: output group order. -/

/-- The visible names of the domain-level output are exactly the sorted
group keys. -/
theorem domain_output_names (records : List ProjectRecord) :
    (process_kpi_data records "domain").map EffRow.name = domainKeys records := by
  simp only [process_kpi_data, aggregate, if_pos rfl, if_true, List.map_map]
  exact (List.map_congr_left fun d _ => rfl).trans (List.map_id _)

/-- Sorting the distinct values of two lists that are permutations of
each other gives the same list. -/
theorem sortedKeys_perm_eq {κ : Type} [DecidableEq κ] (r : κ → κ → Prop)
    [DecidableRel r] [IsTotal κ r] [IsTrans κ r] [IsAntisymm κ r] {l l' : List κ}
    (h : List.Perm l l') :
    List.insertionSort r (uniqueFirst l) = List.insertionSort r (uniqueFirst l') := by
  refine List.eq_of_perm_of_sorted ?_ (List.sorted_insertionSort r _)
    (List.sorted_insertionSort r _)
  refine (List.perm_insertionSort r _).trans (List.Perm.trans ?_
    (List.perm_insertionSort r _).symm)
  refine (List.perm_ext_iff_of_nodup (nodup_uniqueFirst _) (nodup_uniqueFirst _)).2 ?_
  intro a
  rw [mem_uniqueFirst, mem_uniqueFirst]
  exact h.mem_iff

/-- Column sums are invariant under record order. -/
theorem colSum_perm (f : ProjectRecord → Option ℚ) {l l' : List ProjectRecord}
    (h : List.Perm l l') : colSum f l = colSum f l' :=
  (h.map _).sum_eq

/-- Group rows are invariant under member order. -/
theorem sumRow_perm (name : String) {l l' : List ProjectRecord}
    (h : List.Perm l l') : sumRow name l = sumRow name l' := by
  rw [sumRow, sumRow, colSum_perm (·.total_budget) h, colSum_perm (·.journal_articles) h,
    colSum_perm (·.conference_papers) h, colSum_perm (·.book_chapters) h,
    colSum_perm (·.technology_demonstrators) h]

/-- Strict lexicographic order on the composite group key. -/
def keyLt (a b : String × String) : Prop :=
  a.1 < b.1 ∨ (a.1 = b.1 ∧ a.2 < b.2)

/-- A weak lexicographic inequality between distinct keys is strict. -/
theorem keyLe_ne_keyLt {a b : String × String} (h1 : keyLe a b) (h2 : a ≠ b) :
    keyLt a b := by
  rcases h1 with h | ⟨he, hle⟩
  · exact Or.inl h
  · exact Or.inr ⟨he, lt_of_le_of_ne hle fun h2' => h2 (Prod.ext he h2')⟩

/-- The programme-level group keys are strictly ascending in the
lexicographic order. -/
theorem sorted_keyLt_programmeKeys (records : List ProjectRecord) :
    List.Sorted keyLt (programmeKeys records) :=
  (List.sorted_insertionSort keyLe
    (uniqueFirst (records.filterMap progKey))).imp₂ (fun _ _ => keyLe_ne_keyLt)
    (((List.perm_insertionSort _ _).nodup_iff).2 (nodup_uniqueFirst _))

/-- The visible names of the programme-level output are the programme
components of the sorted composite keys, in that order. -/
theorem programme_output_names (records : List ProjectRecord) :
    (process_kpi_data records "programme").map EffRow.name
      = (programmeKeys records).map Prod.snd := by
  have hne : ("programme" : String) ≠ "domain" := by decide
  simp only [process_kpi_data, aggregate, if_neg hne, if_pos rfl, if_true,
    List.map_map]
  exact List.map_congr_left fun k _ => rfl

/-- C5 (amended): at domain level the output rollups appear in strictly
ascending order of their group key, and at programme level they appear
in strictly ascending lexicographic order of their composite
(domain, programme) group key, the visible names being the programme
components of those sorted keys (pandas groupby sorts with `sort=True`;
the order is not first-encountered); moreover at both levels the output
is completely independent of the order of the input records — in
particular repeated calls with the same input produce the same groups in
the same order. -/
theorem c5_output_sorted_and_order_independent :
    (∀ records : List ProjectRecord,
       List.Sorted (· < ·) ((process_kpi_data records "domain").map EffRow.name)) ∧
    (∀ records : List ProjectRecord,
       List.Sorted keyLt (programmeKeys records) ∧
       (process_kpi_data records "programme").map EffRow.name
         = (programmeKeys records).map Prod.snd) ∧
    (∀ records records' : List ProjectRecord, List.Perm records records' →
       process_kpi_data records "domain" = process_kpi_data records' "domain" ∧
       process_kpi_data records "programme"
         = process_kpi_data records' "programme") := by
  refine ⟨?_, ?_, ?_⟩
  · intro records
    rw [domain_output_names, domainKeys]
    have hnd : (List.insertionSort (· ≤ ·)
        (uniqueFirst (records.filterMap (·.domain)))).Nodup :=
      ((List.perm_insertionSort _ _).nodup_iff).2 (nodup_uniqueFirst _)
    exact (List.sorted_insertionSort _ _).lt_of_le hnd
  · intro records
    exact ⟨sorted_keyLt_programmeKeys records, programme_output_names records⟩
  · intro records records' h
    constructor
    · have hk : domainKeys records = domainKeys records' :=
        sortedKeys_perm_eq _ (h.filterMap (·.domain))
      simp only [process_kpi_data, aggregate, if_pos rfl, hk]
      exact congrArg _ (List.map_congr_left fun d _ => sumRow_perm d (h.filter _))
    · have hk : programmeKeys records = programmeKeys records' :=
        sortedKeys_perm_eq _ (h.filterMap progKey)
      have hne : ("programme" : String) ≠ "domain" := by decide
      simp only [process_kpi_data, aggregate, if_neg hne, if_pos rfl, hk]
      exact congrArg _ (List.map_congr_left fun k _ => sumRow_perm k.2 (h.filter _))

/-- Counterexample input for C5: domain "B" is encountered before
domain "A". -/
def exC5 : List ProjectRecord :=
  [⟨some "B", some "P", "x", some 1, some 0, some 0, some 0, some 0, some 1⟩,
   ⟨some "A", some "Q", "y", some 2, some 0, some 0, some 0, some 0, some 1⟩]

/-- C5 counterexample: the domain-level rollups come out in sorted order
["A", "B"], not in the first-encountered order ["B", "A"] of the input,
so the claimed first-encountered (not sorted) ordering is false. -/
theorem c5_counterexample :
    (process_kpi_data exC5 "domain").map EffRow.name = ["A", "B"] ∧
    uniqueFirst (exC5.filterMap (·.domain)) = ["B", "A"] ∧
    (["A", "B"] : List String) ≠ ["B", "A"] := by
  refine ⟨?_, ?_, by decide⟩
  · rw [domain_output_names]
    simp [domainKeys, uniqueFirst, uniqueAux, List.insertionSort, List.orderedInsert,
      exC5]
    decide
  · simp [uniqueFirst, uniqueAux, exC5]

/-- Witness inputs for C5: the same records in two different orders. -/
def exW5a : List ProjectRecord :=
  [⟨some "B", some "P", "x", some 1, some 0, some 0, some 0, some 0, some 1⟩,
   ⟨some "A", some "Q", "y", some 2, some 0, some 0, some 0, some 0, some 1⟩]

/-- Witness inputs for C5, swapped order. -/
def exW5b : List ProjectRecord :=
  [⟨some "A", some "Q", "y", some 2, some 0, some 0, some 0, some 0, some 1⟩,
   ⟨some "B", some "P", "x", some 1, some 0, some 0, some 0, some 0, some 1⟩]

theorem c5_output_sorted_and_order_independent_witness :
    List.Sorted (· < ·) ((process_kpi_data exW5a "domain").map EffRow.name) ∧
    List.Sorted keyLt (programmeKeys exW5a) ∧
    process_kpi_data exW5a "domain" = process_kpi_data exW5b "domain" :=
  ⟨c5_output_sorted_and_order_independent.1 exW5a,
   (c5_output_sorted_and_order_independent.2.1 exW5a).1,
   (c5_output_sorted_and_order_independent.2.2 exW5a exW5b
     (List.Perm.swap _ _ _)).1⟩

/-! Claim C7: programme-level grouping uses the composite
(domain, programme) key. -/

/-- A nodup list containing two distinct elements has length at least
two. -/
theorem two_le_length_of_nodup {κ : Type} [DecidableEq κ] {l : List κ} {a b : κ}
    (hnd : l.Nodup) (ha : a ∈ l) (hb : b ∈ l) (hab : a ≠ b) : 2 ≤ l.length := by
  rw [← List.toFinset_card_of_nodup hnd]
  have hsub : ({a, b} : Finset κ) ⊆ l.toFinset := by
    intro x hx
    rcases Finset.mem_insert.1 hx with rfl | hx
    · exact List.mem_toFinset.2 ha
    · rw [Finset.mem_singleton] at hx
      subst hx
      exact List.mem_toFinset.2 hb
  calc 2 = ({a, b} : Finset κ).card := (Finset.card_pair hab).symm
    _ ≤ l.toFinset.card := Finset.card_le_card hsub

/-- A (domain, programme) pair occurring in some record is a programme
group key. -/
theorem mem_programmeKeys {records : List ProjectRecord} {d p : String}
    (h : ∃ r ∈ records, r.domain = some d ∧ r.programme = some p) :
    (d, p) ∈ programmeKeys records := by
  rcases h with ⟨r, hr, hd, hp⟩
  rw [programmeKeys, List.mem_insertionSort, mem_uniqueFirst]
  exact List.mem_filterMap.2 ⟨r, hr, by simp [progKey, hd, hp]⟩

/-- The programme group keys are distinct. -/
theorem nodup_programmeKeys (records : List ProjectRecord) :
    (programmeKeys records).Nodup :=
  ((List.perm_insertionSort _ _).nodup_iff).2 (nodup_uniqueFirst _)

/-- C7: programme-level aggregation groups by the composite
(domain, programme) key: whenever some record carries the pair (d, p)
the output has a rollup whose visible name is the programme name alone
and whose five sums range over exactly the records matching the
composite key; and if the same programme name also occurs under a
different domain, the output contains two distinct rollups with that
name. -/
theorem c7_programme_composite_key (records : List ProjectRecord) (d p : String)
    (h : ∃ r ∈ records, r.domain = some d ∧ r.programme = some p) :
    (∃ g ∈ process_kpi_data records "programme",
       g.name = p ∧
       g.total_budget
         = some (colSum (·.total_budget) (programmeGroup records (d, p))) ∧
       g.journal_articles
         = some (colSum (·.journal_articles) (programmeGroup records (d, p))) ∧
       g.conference_papers
         = some (colSum (·.conference_papers) (programmeGroup records (d, p))) ∧
       g.book_chapters
         = some (colSum (·.book_chapters) (programmeGroup records (d, p))) ∧
       g.technology_demonstrators
         = some (colSum (·.technology_demonstrators)
             (programmeGroup records (d, p)))) ∧
    (∀ d' : String, d' ≠ d →
       (∃ r ∈ records, r.domain = some d' ∧ r.programme = some p) →
       2 ≤ ((process_kpi_data records "programme").filter
         fun g => decide (g.name = p)).length) := by
  have hform : process_kpi_data records "programme"
      = ((programmeKeys records).map
          fun k => sumRow k.2 (programmeGroup records k)).map addCosts := by
    simp [process_kpi_data, aggregate]
  constructor
  · refine ⟨addCosts (sumRow p (programmeGroup records (d, p))), ?_, rfl, rfl, rfl,
      rfl, rfl, rfl⟩
    rw [hform]
    exact List.mem_map_of_mem _ (List.mem_map_of_mem _ (mem_programmeKeys h))
  · intro d' hne h'
    rw [hform, List.map_map, List.filter_map, List.length_map]
    refine two_le_length_of_nodup (a := (d, p)) (b := (d', p))
      ((nodup_programmeKeys records).filter _) ?_ ?_ ?_
    · exact List.mem_filter.2 ⟨mem_programmeKeys h, by simp [addCosts, sumRow]⟩
    · exact List.mem_filter.2 ⟨mem_programmeKeys h', by simp [addCosts, sumRow]⟩
    · intro he
      exact hne (congrArg Prod.fst he).symm

/-- Witness input for C7: the programme name "Core" occurs in two
different domains. -/
def exW7 : List ProjectRecord :=
  [⟨some "AI", some "Core", "x", some 3, some 1, some 0, some 0, some 0, some 1⟩,
   ⟨some "Bio", some "Core", "y", some 4, some 0, some 1, some 0, some 0, some 0⟩]

theorem c7_programme_composite_key_witness :
    2 ≤ ((process_kpi_data exW7 "programme").filter
      fun g => decide (g.name = "Core")).length :=
  (c7_programme_composite_key exW7 "AI" "Core"
    (⟨exW7.get ⟨0, by simp [exW7]⟩, by simp [exW7], rfl, rfl⟩)).2 "Bio" (by decide)
    ⟨exW7.get ⟨1, by simp [exW7]⟩, by simp [exW7], rfl, rfl⟩
